import Mathlib

/-!
Verification of the process-control and namespace utilities of gProfiler
(`gprofiler/utils.py`, `gprofiler/exceptions.py`), shallowly embedded in Lean.
OS interactions (filesystem symlinks, subprocess waits, socket binds,
namespace membership) are modelled as explicit environment parameters; the
control flow of each Python function is translated directly.
-/

namespace Gprofiler

/-! ## String / path primitives (models of `str.startswith`, `str.endswith`,
`os.path.join`, `pathlib.Path.parts`) -/

/-- Model of Python `s.startswith(t)`. -/
def strStartsWith (s t : String) : Bool :=
  t.data.isPrefixOf s.data

/-- Model of Python `s.endswith(t)`. -/
def strEndsWith (s t : String) : Bool :=
  t.data.isSuffixOf s.data

/-- Model of POSIX `os.path.join(a, b)`: if `b` is absolute it replaces `a`;
otherwise `b` is appended, inserting a separator unless `a` is empty or
already ends with one. -/
def osPathJoin (a b : String) : String :=
  if strStartsWith b "/" then b
  else if a.data.isEmpty || strEndsWith a "/" then a ++ b
  else a ++ "/" ++ b

/-- Split a character list on `'/'` into (possibly empty) groups.
The result is always nonempty. -/
def splitOnSlash : List Char → List (List Char)
  | [] => [[]]
  | c :: cs =>
    match splitOnSlash cs with
    | [] => [[]]
    | g :: gs => if c = '/' then [] :: g :: gs else (c :: g) :: gs

/-- Model of `pathlib.Path(s).parts` without the leading root entry:
the non-empty, non-`"."` components of `s`. -/
def pathParts (s : String) : List String :=
  ((splitOnSlash s.data).filter (fun g => !(g == []) && !(g == ['.']))).map
    (fun g => ⟨g⟩)

/-! ## Path Resolver (`resolve_proc_root_links`)

The filesystem's symlinks are modelled as a function `links` mapping a path
to `some target` when `os.path.islink` holds there (and `os.readlink`
returns `target`), `none` otherwise. -/

/-- One iteration of the loop body of `resolve_proc_root_links`: join the next
component, and if the joined path is a symlink, re-root an absolute target
under `proc_root` or join a relative target against the current directory. -/
def resolveStep (links : String → Option String) (proc_root : String)
    (path part : String) : String :=
  let next_path := osPathJoin path part
  match links next_path with
  | some link =>
      if strStartsWith link "/" then proc_root ++ link
      else osPathJoin path link
  | none => next_path

/-- Model of `resolve_proc_root_links(proc_root, ns_path)`. The `assert` that
`ns_path` is absolute is modelled by returning `none` (an `AssertionError`)
when it is not. -/
def resolve_proc_root_links (links : String → Option String)
    (proc_root ns_path : String) : Option String :=
  if strStartsWith ns_path "/" then
    some ((pathParts ns_path).foldl (resolveStep links proc_root) proc_root)
  else
    none

/-! ### Helper lemmas about the string primitives -/

theorem strStartsWith_append (s t : String) :
    strStartsWith (s ++ t) s = true := by
  simp [strStartsWith, String.data_append, List.isPrefixOf_iff_prefix]

theorem mem_splitOnSlash_no_slash (l : List Char) :
    ∀ g ∈ splitOnSlash l, '/' ∉ g := by
  induction l with
  | nil =>
    intro g h
    simp [splitOnSlash] at h
    simp [h]
  | cons c cs ih =>
    intro g h
    simp only [splitOnSlash] at h
    rcases hs : splitOnSlash cs with _ | ⟨g0, gs⟩
    · rw [hs] at h; simp at h; simp [h]
    · rw [hs] at h
      have hg0 : '/' ∉ g0 := ih g0 (by rw [hs]; exact List.mem_cons_self g0 gs)
      by_cases hc : c = '/'
      · simp [hc] at h
        rcases h with h | h | h
        · simp [h]
        · exact h ▸ hg0
        · exact ih g (by rw [hs]; exact List.mem_cons_of_mem g0 h)
      · simp [hc] at h
        rcases h with h | h
        · subst h
          intro hm
          rcases List.mem_cons.mp hm with h2 | h2
          · exact hc h2.symm
          · exact hg0 h2
        · exact ih g (by rw [hs]; exact List.mem_cons_of_mem g0 h)

theorem pathParts_not_absolute {p : String} {s : String}
    (h : p ∈ pathParts s) : strStartsWith p "/" = false := by
  simp only [pathParts, List.mem_map, List.mem_filter] at h
  obtain ⟨g, ⟨hg, hcond⟩, hp⟩ := h
  have hnoslash : '/' ∉ g := mem_splitOnSlash_no_slash _ g hg
  have hne : g ≠ [] := by
    intro hnil
    simp [hnil] at hcond
  subst hp
  cases g with
  | nil => exact absurd rfl hne
  | cons a as =>
    have ha : a ≠ '/' := fun hh => hnoslash (hh ▸ List.mem_cons_self _ _)
    simp [strStartsWith, List.isPrefixOf]
    intro hh
    exact absurd hh.symm ha

/-- Joining a non-absolute component onto a path keeps any prefix of the path:
the result is the path followed by some (possibly empty) suffix. -/
theorem osPathJoin_eq_append (a b : String) (hb : strStartsWith b "/" = false) :
    ∃ r, osPathJoin a b = a ++ r := by
  unfold osPathJoin
  rw [hb]
  simp only [Bool.false_eq_true, if_false]
  by_cases h : (a.data.isEmpty || strEndsWith a "/") = true
  · exact ⟨b, by rw [if_pos h]⟩
  · exact ⟨"/" ++ b, by rw [if_neg h, String.append_assoc]⟩

/-- One resolver step preserves the `proc_root` prefix, provided the component
being joined is not absolute. -/
theorem resolveStep_preserves_root (links : String → Option String)
    (proc_root part : String) (r : String)
    (hpart : strStartsWith part "/" = false) :
    ∃ q, resolveStep links proc_root (proc_root ++ r) part = proc_root ++ q := by
  unfold resolveStep
  cases hl : links (osPathJoin (proc_root ++ r) part) with
  | none =>
    obtain ⟨q, hq⟩ := osPathJoin_eq_append (proc_root ++ r) part hpart
    refine ⟨r ++ q, ?_⟩
    simp only [hl]
    rw [hq, String.append_assoc]
  | some link =>
    by_cases habs : strStartsWith link "/"
    · exact ⟨link, by simp [hl, habs]⟩
    · obtain ⟨q, hq⟩ :=
        osPathJoin_eq_append (proc_root ++ r) link (by simpa using habs)
      refine ⟨r ++ q, ?_⟩
      simp only [hl]
      rw [if_neg habs, hq, String.append_assoc]

theorem strEndsWith_slash_false (B s : String) (c : Char)
    (hc : s.data.getLast? = some c) (hne : c ≠ '/') :
    strEndsWith (B ++ s) "/" = false := by
  rw [Bool.eq_false_iff]
  intro h
  rw [strEndsWith, String.data_append] at h
  have hsuf : String.data "/" <:+ B.data ++ s.data :=
    List.isSuffixOf_iff_suffix.mp h
  obtain ⟨t, ht⟩ := hsuf
  have hslash : String.data "/" = ['/'] := rfl
  rw [hslash] at ht
  have h1 : (B.data ++ s.data).getLast? = some '/' := by
    rw [← ht]; exact List.getLast?_concat t
  have h2 : (B.data ++ s.data).getLast? = some c := by
    rw [List.getLast?_append, hc]; rfl
  rw [h1] at h2
  exact hne (Option.some.inj h2).symm

theorem foldl_resolveStep_preserves_root (links : String → Option String)
    (proc_root : String) (parts : List String)
    (hparts : ∀ p ∈ parts, strStartsWith p "/" = false) :
    ∀ r, ∃ q,
      parts.foldl (resolveStep links proc_root) (proc_root ++ r) =
        proc_root ++ q := by
  induction parts with
  | nil => exact fun r => ⟨r, rfl⟩
  | cons p ps ih =>
    intro r
    obtain ⟨q, hq⟩ := resolveStep_preserves_root links proc_root p r
      (hparts p (List.mem_cons_self _ _))
    simpa [List.foldl_cons, hq] using
      ih (fun x hx => hparts x (List.mem_cons_of_mem _ hx)) q

/-- Claim C6: when a so-far-resolved component is a symbolic link, an
absolute target is re-rooted under the base rather than escaping, and a
relative target is joined against the current directory; in particular, with
a symlink `/abs -> /etc/target` under a base `B`, resolving `/abs/file`
yields `B/etc/target/file`. -/
theorem resolve_symlink_rerooting :
    (∀ (links : String → Option String) (proc_root path part link : String),
        links (osPathJoin path part) = some link →
          resolveStep links proc_root path part =
            if strStartsWith link "/" then proc_root ++ link
            else osPathJoin path link) ∧
    (∀ (links : String → Option String) (B : String),
        links (osPathJoin B "abs") = some "/etc/target" →
        links (B ++ "/etc/target/file") = none →
          resolve_proc_root_links links B "/abs/file" =
            some (B ++ "/etc/target/file")) := by
  constructor
  · intro links proc_root path part link h
    simp [resolveStep, h]
  · intro links B h1 h2
    have hparts : pathParts "/abs/file" = ["abs", "file"] := rfl
    have hne : strEndsWith (B ++ "/etc/target") "/" = false :=
      strEndsWith_slash_false B "/etc/target" 't' rfl (by decide)
    have hempty : (B ++ "/etc/target").data.isEmpty = false := by
      have hd : String.data "/etc/target" = '/' :: "etc/target".data := rfl
      simp [String.data_append, hd]
    have hf : strStartsWith "file" "/" = false := rfl
    have hjoin2 : osPathJoin (B ++ "/etc/target") "file" =
        B ++ "/etc/target/file" := by
      simp only [osPathJoin, hempty, hne, hf, Bool.false_eq_true, if_false,
        Bool.or_self]
      rw [String.append_assoc, String.append_assoc]
      exact congrArg (B ++ ·) rfl
    have habs : strStartsWith "/abs/file" "/" = true := rfl
    simp only [resolve_proc_root_links, habs, if_true, hparts,
      List.foldl_cons, List.foldl_nil]
    have hstep1 : resolveStep links B B "abs" = B ++ "/etc/target" := by
      have ht : strStartsWith "/etc/target" "/" = true := rfl
      simp only [resolveStep, h1, ht, if_true]
    rw [hstep1]
    have hstep2 : resolveStep links B (B ++ "/etc/target") "file" =
        B ++ "/etc/target/file" := by
      simp only [resolveStep, hjoin2, h2]
    rw [hstep2]

/-- Witness for C6: a concrete base and symlink table showing the escape
prevention at `/base`. -/
theorem resolve_symlink_rerooting_witness :
    resolve_proc_root_links
      (fun p => if p = "/base/abs" then some "/etc/target" else none)
      "/base" "/abs/file" = some "/base/etc/target/file" := by
  exact resolve_symlink_rerooting.2
    (fun p => if p = "/base/abs" then some "/etc/target" else none)
    "/base" (by rfl) (by rfl)

/-- Claim C10: for every base directory string, absolute input path and
symlink configuration, the string the Path Resolver returns has the base
directory string as a prefix. -/
theorem resolve_result_has_root_prefix (links : String → Option String)
    (proc_root ns_path res : String)
    (h : resolve_proc_root_links links proc_root ns_path = some res) :
    ∃ r, res = proc_root ++ r ∧ strStartsWith res proc_root = true := by
  unfold resolve_proc_root_links at h
  by_cases habs : strStartsWith ns_path "/"
  · rw [if_pos habs] at h
    have hparts : ∀ p ∈ pathParts ns_path, strStartsWith p "/" = false :=
      fun p hp => pathParts_not_absolute hp
    obtain ⟨q, hq⟩ :=
      foldl_resolveStep_preserves_root links proc_root (pathParts ns_path)
        hparts ""
    rw [String.append_empty] at hq
    refine ⟨q, ?_, ?_⟩
    · rw [← Option.some.inj h, hq]
    · rw [← Option.some.inj h, hq]
      exact strStartsWith_append proc_root q
  · rw [if_neg habs] at h
    exact absurd h (by simp)

/-- Witness for C10: the prefix invariant at a concrete base, path and
(empty) symlink table. -/
theorem resolve_result_has_root_prefix_witness :
    ∃ r, "/proc/1/root/a/b" = "/proc/1/root" ++ r ∧
      strStartsWith "/proc/1/root/a/b" "/proc/1/root" = true :=
  resolve_result_has_root_prefix (fun _ => none) "/proc/1/root" "/a/b"
    "/proc/1/root/a/b" (by rfl)

/-! ## `CalledProcessError` (`gprofiler/exceptions.py`)

Captured output is modelled as byte lists; the `__str__` rendering follows
the Python source, with CPython's `repr` of `bytes`, of `str` and of lists
reproduced for the characters that occur in command lines and captured
output. -/

/-- Captured stream contents: a list of byte values. -/
abbrev Bytes := List Nat

def hexDigitChar (n : Nat) : Char :=
  if n < 10 then Char.ofNat (48 + n) else Char.ofNat (87 + (n - 10))

/-- CPython escaping of one byte inside a `bytes` repr using `quote` as the
enclosing quote character. -/
def pyByteEscape (quote : Nat) (b : Nat) : String :=
  if b = 92 then "\\\\"
  else if b = 9 then "\\t"
  else if b = 10 then "\\n"
  else if b = 13 then "\\r"
  else if b = quote then "\\" ++ String.singleton (Char.ofNat quote)
  else if 32 ≤ b && b < 127 then String.singleton (Char.ofNat b)
  else "\\x" ++ String.singleton (hexDigitChar (b / 16)) ++
    String.singleton (hexDigitChar (b % 16))

/-- CPython's quote choice for a `bytes`/`str` repr: single quote, unless the
content contains a single quote and no double quote. -/
def pyQuoteChoice (hasSingle hasDouble : Bool) : Nat :=
  if hasSingle && !hasDouble then 34 else 39

/-- Model of `repr(b)` for `b : bytes`. -/
def pyBytesRepr (l : Bytes) : String :=
  let q := pyQuoteChoice (l.contains 39) (l.contains 34)
  "b" ++ String.singleton (Char.ofNat q) ++
    String.join (l.map (pyByteEscape q)) ++ String.singleton (Char.ofNat q)

/-- Model of the f-string rendering of an optional `bytes` value: `None` when
absent, its repr otherwise. -/
def pyOptBytes : Option Bytes → String
  | none => "None"
  | some l => pyBytesRepr l

/-- CPython escaping of one character inside a `str` repr. -/
def pyCharEscape (quote : Char) (c : Char) : String :=
  if c = '\\' then "\\\\"
  else if c = '\t' then "\\t"
  else if c = '\n' then "\\n"
  else if c = '\r' then "\\r"
  else if c = quote then "\\" ++ String.singleton quote
  else String.singleton c

/-- Model of `repr(s)` for `s : str`. -/
def pyStrRepr (s : String) : String :=
  let q := Char.ofNat (pyQuoteChoice (s.data.contains '\x27') (s.data.contains '"'))
  String.singleton q ++ String.join (s.data.map (pyCharEscape q)) ++
    String.singleton q

/-- Model of `str(l)` for a list of strings (as `process.args` renders). -/
def pyListRepr (l : List String) : String :=
  "[" ++ String.intercalate ", " (l.map pyStrRepr) ++ "]"

/-- The signal names Python's `signal.Signals` enum carries on Linux, by
number; `none` models the `ValueError` branch of `__str__`. -/
def signalsName : Nat → Option String
  | 1 => some "SIGHUP"
  | 2 => some "SIGINT"
  | 3 => some "SIGQUIT"
  | 4 => some "SIGILL"
  | 5 => some "SIGTRAP"
  | 6 => some "SIGABRT"
  | 7 => some "SIGBUS"
  | 8 => some "SIGFPE"
  | 9 => some "SIGKILL"
  | 10 => some "SIGUSR1"
  | 11 => some "SIGSEGV"
  | 12 => some "SIGUSR2"
  | 13 => some "SIGPIPE"
  | 14 => some "SIGALRM"
  | 15 => some "SIGTERM"
  | 17 => some "SIGCHLD"
  | 18 => some "SIGCONT"
  | 19 => some "SIGSTOP"
  | 20 => some "SIGTSTP"
  | 21 => some "SIGTTIN"
  | 22 => some "SIGTTOU"
  | 23 => some "SIGURG"
  | 24 => some "SIGXCPU"
  | 25 => some "SIGXFSZ"
  | 26 => some "SIGVTALRM"
  | 27 => some "SIGPROF"
  | 28 => some "SIGWINCH"
  | 29 => some "SIGIO"
  | 30 => some "SIGPWR"
  | 31 => some "SIGSYS"
  | _ => none

/-- Model of `repr(signal.Signals(n))`, e.g. `<Signals.SIGKILL: 9>`. -/
def signalsRepr (n : Nat) : Option String :=
  (signalsName n).map
    (fun s => "<Signals." ++ s ++ ": " ++ toString n ++ ">")

/-- The data a raised `CalledProcessError` carries: command, exit status and
the captured streams. -/
structure CalledProcErrData where
  cmd : List String
  returncode : Int
  stdout : Option Bytes
  stderr : Option Bytes
deriving DecidableEq

/-- Model of `CalledProcessError.__str__`. -/
def calledProcessErrorStr (e : CalledProcErrData) : String :=
  let base :=
    if e.returncode < 0 then
      match signalsRepr (-e.returncode).toNat with
      | some s =>
          "Command '" ++ pyListRepr e.cmd ++ "' died with " ++ s ++ "."
      | none =>
          "Command '" ++ pyListRepr e.cmd ++ "' died with unknown signal " ++
            toString (-e.returncode) ++ "."
    else
      "Command '" ++ pyListRepr e.cmd ++ "' returned non-zero exit status " ++
        toString e.returncode ++ ". "
  base ++ "\nstdout: " ++ pyOptBytes e.stdout ++ "\nstderr: " ++
    pyOptBytes e.stderr

/-! ## Process Supervisor (`run_process`)

One invocation is modelled against an environment recording what the OS
reported at each wait: the outcome of each `process.communicate(timeout=1)`
attempt in the polling loop (together with the `stop_event.is_set()` and
`time.monotonic() > end_time` observations made when it times out), the
outcome of a synchronous `communicate()`/`wait()`, and the exit status
`process.poll()` reports after a successful wait. A result of `none` means
the polling loop was still running past the recorded observations. -/

/-- Outcome of one `process.communicate(timeout=1)` attempt in the loop. -/
inductive CommStep where
  | done (stdout stderr : Bytes)
  | timedOut (stopSet : Bool) (pastEnd : Bool)
  | exn
deriving DecidableEq

structure RunEnv where
  commSteps : List CommStep
  syncOk : Bool
  syncStdout : Bytes
  syncStderr : Bytes
  pollRetcode : Option Int
deriving DecidableEq

/-- The failure conditions `run_process` can raise. -/
inductive RunErr where
  | assertionError (msg : String)
  | processStopped
  | timeoutExpired
  | unexpected
  | calledProcessError (e : CalledProcErrData)
deriving DecidableEq

/-- Model of `subprocess.CompletedProcess` as built by `run_process`. -/
structure CompletedProc where
  args : List String
  returncode : Int
  stdout : Option Bytes
  stderr : Option Bytes
deriving DecidableEq

/-- The cleanup operations `run_process` performs on its child in the
`except:` handler, in order. -/
inductive KillAction where
  | sendSignal (sig : Nat)
  | wait
deriving DecidableEq

/-- The `while True:` polling loop of `run_process` when a stop event is
given: try `communicate(timeout=1)`; on `TimeoutExpired`, raise
`ProcessStoppedException` if the stop event is set, then `TimeoutExpired` if
the deadline passed, otherwise poll again. -/
def commLoop (timeoutGiven : Bool) :
    List CommStep → Option (Except RunErr (Bytes × Bytes))
  | [] => none
  | .done out err :: _ => some (.ok (out, err))
  | .timedOut stopSet pastEnd :: rest =>
    if stopSet then some (.error .processStopped)
    else if timeoutGiven && pastEnd then some (.error .timeoutExpired)
    else commLoop timeoutGiven rest
  | .exn :: _ => some (.error .unexpected)

/-- The `try:` body of `run_process`: the two asserts, the synchronous
branch, and the polling branch. Produces the captured streams on success. -/
def runWaitPhase (stopEvent : Bool) (timeout : Option Nat)
    (communicate : Bool) (env : RunEnv) :
    Option (Except RunErr (Option Bytes × Option Bytes)) :=
  if !stopEvent then
    if timeout.isSome then
      some (.error (.assertionError
        ("expected no timeout, got " ++ toString (timeout.getD 0))))
    else if communicate then
      if env.syncOk then some (.ok (some env.syncStdout, some env.syncStderr))
      else some (.error .unexpected)
    else
      if env.syncOk then some (.ok (none, none))
      else some (.error .unexpected)
  else
    if !communicate then
      some (.error (.assertionError
        "expected communicate=True if stop_event is given"))
    else
      match commLoop timeout.isSome env.commSteps with
      | none => none
      | some (.ok (out, err)) => some (.ok (some out, some err))
      | some (.error e) => some (.error e)

/-- Model of `run_process`: the wait phase under the `except:` handler that
sends the configured kill signal and reaps on any exception, then the
`poll()` assert and the `check` classification. Returns the cleanup actions
performed and the outcome. -/
def run_process (cmd : List String) (stopEvent : Bool) (check : Bool)
    (timeout : Option Nat) (killSignal : Nat) (communicate : Bool)
    (env : RunEnv) : Option (List KillAction × Except RunErr CompletedProc) :=
  match runWaitPhase stopEvent timeout communicate env with
  | none => none
  | some (.error e) => some ([.sendSignal killSignal, .wait], .error e)
  | some (.ok (out, err)) =>
    match env.pollRetcode with
    | none => some ([], .error (.assertionError
      "only None if child has not terminated"))
    | some rc =>
      if check && rc != 0 then
        some ([], .error (.calledProcessError ⟨cmd, rc, out, err⟩))
      else
        some ([], .ok ⟨cmd, rc, out, err⟩)

/-- Claim C1: whenever the wait phase of `run_process` fails — stop event
set, timeout elapsed, or any other exception — the child is sent the
configured kill signal and then reaped before the failure propagates. -/
theorem run_process_failure_kills_then_reaps
    (cmd : List String) (stopEvent check : Bool) (timeout : Option Nat)
    (killSignal : Nat) (communicate : Bool) (env : RunEnv) (e : RunErr)
    (h : runWaitPhase stopEvent timeout communicate env = some (.error e)) :
    run_process cmd stopEvent check timeout killSignal communicate env =
      some ([.sendSignal killSignal, .wait], .error e) := by
  unfold run_process
  rw [h]

/-- Witness for C1: a run cancelled by the stop event kills with signal 9 and
reaps before raising the stopped condition. -/
theorem run_process_failure_kills_then_reaps_witness :
    run_process ["sleep", "60"] true true none 9 true
      ⟨[.timedOut true false], true, [], [], some 0⟩ =
      some ([.sendSignal 9, .wait], .error .processStopped) :=
  run_process_failure_kills_then_reaps ["sleep", "60"] true true none 9 true
    ⟨[.timedOut true false], true, [], [], some 0⟩ .processStopped (by rfl)

/-- Counterexample to claim C2: with no stop event and a timeout of 5
supplied, `run_process` does not wait out the timeout and raise a timeout
condition — it fails immediately with an `AssertionError` (after killing and
reaping the just-started child). -/
theorem run_process_timeout_without_event_counterexample :
    run_process ["sleep", "60"] false true (some 5) 9 true
      ⟨[], true, [], [], some 0⟩ =
      some ([.sendSignal 9, .wait],
        .error (.assertionError "expected no timeout, got 5")) ∧
    ∀ acts, run_process ["sleep", "60"] false true (some 5) 9 true
      ⟨[], true, [], [], some 0⟩ ≠ some (acts, .error .timeoutExpired) := by
  refine ⟨rfl, ?_⟩
  intro acts h
  have he : run_process ["sleep", "60"] false true (some 5) 9 true
      ⟨[], true, [], [], some 0⟩ =
      some ([.sendSignal 9, .wait],
        .error (.assertionError "expected no timeout, got 5")) := rfl
  rw [he] at h
  simp at h

/-- Amended C2: when no cancellation signal is supplied, supplying a timeout
is rejected up front — the call fails with an assertion error (the child is
killed and reaped first); timeouts are only honoured together with a stop
event. -/
theorem run_process_no_event_rejects_timeout
    (cmd : List String) (check : Bool) (t : Nat) (killSignal : Nat)
    (communicate : Bool) (env : RunEnv) :
    run_process cmd false check (some t) killSignal communicate env =
      some ([.sendSignal killSignal, .wait],
        .error (.assertionError ("expected no timeout, got " ++ toString t))) := by
  unfold run_process runWaitPhase
  simp

/-- Claim C7: with `check` enabled and a non-zero (or signal-negative) exit
status, `run_process` fails with a `CalledProcessError` carrying the command,
the exact exit status and the exact captured streams, and its rendering names
the terminating signal (or the exit code) and includes both streams. -/
theorem run_process_check_failure
    (cmd : List String) (stopEvent : Bool) (timeout : Option Nat)
    (killSignal : Nat) (communicate : Bool) (env : RunEnv)
    (out err : Option Bytes) (rc : Int)
    (hwait : runWaitPhase stopEvent timeout communicate env =
      some (.ok (out, err)))
    (hrc : env.pollRetcode = some rc) (hnz : rc ≠ 0) :
    run_process cmd stopEvent true timeout killSignal communicate env =
      some ([], .error (.calledProcessError ⟨cmd, rc, out, err⟩)) ∧
    ∃ base, calledProcessErrorStr ⟨cmd, rc, out, err⟩ =
        base ++ "\nstdout: " ++ pyOptBytes out ++ "\nstderr: " ++
          pyOptBytes err ∧
      (rc < 0 →
        (∃ s, signalsRepr (-rc).toNat = some s ∧
            base = "Command '" ++ pyListRepr cmd ++ "' died with " ++ s ++
              ".") ∨
          (signalsRepr (-rc).toNat = none ∧
            base = "Command '" ++ pyListRepr cmd ++
              "' died with unknown signal " ++ toString (-rc) ++ ".")) ∧
      (0 ≤ rc →
        base = "Command '" ++ pyListRepr cmd ++
          "' returned non-zero exit status " ++ toString rc ++ ". ") := by
  constructor
  · unfold run_process
    rw [hwait, hrc]
    simp [hnz]
  · by_cases hneg : rc < 0
    · cases hs : signalsRepr (-rc).toNat with
      | some s =>
        refine ⟨"Command '" ++ pyListRepr cmd ++ "' died with " ++ s ++ ".",
          ?_, fun _ => Or.inl ⟨s, rfl, rfl⟩,
          fun hge => absurd hneg (not_lt.mpr hge)⟩
        simp [calledProcessErrorStr, hneg, hs]
      | none =>
        refine ⟨"Command '" ++ pyListRepr cmd ++
            "' died with unknown signal " ++ toString (-rc) ++ ".",
          ?_, fun _ => Or.inr ⟨rfl, rfl⟩,
          fun hge => absurd hneg (not_lt.mpr hge)⟩
        simp [calledProcessErrorStr, hneg, hs]
    · refine ⟨"Command '" ++ pyListRepr cmd ++
          "' returned non-zero exit status " ++ toString rc ++ ". ",
        ?_, fun hlt => absurd hlt hneg, fun _ => rfl⟩
      simp [calledProcessErrorStr, hneg]

/-- Witness for C7: a signal-terminated child (status -9) under `check`. -/
theorem run_process_check_failure_witness :
    run_process ["ls"] false true none 9 true
      ⟨[], true, [104, 105], [], some (-9)⟩ =
      some ([], .error (.calledProcessError
        ⟨["ls"], -9, some [104, 105], some []⟩)) ∧
    ∃ base, calledProcessErrorStr ⟨["ls"], -9, some [104, 105], some []⟩ =
        base ++ "\nstdout: " ++ pyOptBytes (some [104, 105]) ++
          "\nstderr: " ++ pyOptBytes (some []) ∧
      ((-9 : Int) < 0 →
        (∃ s, signalsRepr (-(-9 : Int)).toNat = some s ∧
            base = "Command '" ++ pyListRepr ["ls"] ++ "' died with " ++ s ++
              ".") ∨
          (signalsRepr (-(-9 : Int)).toNat = none ∧
            base = "Command '" ++ pyListRepr ["ls"] ++
              "' died with unknown signal " ++ toString (-(-9 : Int)) ++
              ".")) ∧
      ((0 : Int) ≤ -9 →
        base = "Command '" ++ pyListRepr ["ls"] ++
          "' returned non-zero exit status " ++ toString (-9 : Int) ++
          ". ") :=
  run_process_check_failure ["ls"] false none 9 true
    ⟨[], true, [104, 105], [], some (-9)⟩ (some [104, 105]) (some []) (-9)
    (by rfl) (by rfl) (by decide)

/-! ## Namespace Executor (`run_in_ns`, `is_same_ns`)

The OS state one invocation observes is a record of pure functions:
`is_same_ns` (namespace-file inode comparison) per kind, and success of the
`unshare` and `setns` libc calls per kind. -/

/-- The sort key of `sorted(nstypes, key=lambda ns: 1 if ns == "mnt" else 0)`. -/
def nsSortKey (ns : String) : Nat :=
  if ns == "mnt" then 1 else 0

/-- Stable insertion of one element into a key-sorted list: the element is
placed before later elements of equal key, as Python's stable `sorted`
does for an element that occurs earlier. -/
def nsInsert (x : String) : List String → List String
  | [] => [x]
  | y :: ys =>
    if nsSortKey x ≤ nsSortKey y then x :: y :: ys else y :: nsInsert x ys

/-- Model of `sorted(nstypes, key=lambda ns: 1 if ns == "mnt" else 0)` (a
stable sort by that key). -/
def nsSorted : List String → List String
  | [] => []
  | x :: xs => nsInsert x (nsSorted xs)

/-- The hard-coded clone-flag table of `_switch_and_run`; `none` models the
`KeyError` an unknown kind raises. -/
def nsFlag : String → Option Nat
  | "mnt" => some 0x00020000
  | "net" => some 0x40000000
  | "pid" => some 0x20000000
  | "uts" => some 0x04000000
  | _ => none

structure NsEnv where
  sameNs : String → Bool
  unshareOk : String → Bool
  setnsOk : String → Bool

/-- Kernel-visible namespace operations of the worker thread, plus the
callback invocation. -/
inductive NsOp where
  | unshareOp (kind : String)
  | setnsOp (kind : String)
  | callbackRun
deriving DecidableEq

/-- The loop of `_switch_and_run` over the (sorted) kinds: skip a kind when
already in the same namespace, otherwise unshare then setns, raising (second
component `false`) when the flag lookup, the unshare or the setns fails. -/
def switchLoop (env : NsEnv) : List String → List NsOp → List NsOp × Bool
  | [], acc => (acc, true)
  | k :: ks, acc =>
    if env.sameNs k then switchLoop env ks acc
    else
      match nsFlag k with
      | none => (acc, false)
      | some _ =>
        if env.unshareOk k then
          if env.setnsOk k then
            switchLoop env ks (acc ++ [.unshareOp k, .setnsOp k])
          else (acc ++ [.unshareOp k, .setnsOp k], false)
        else (acc ++ [.unshareOp k], false)

/-- Model of `run_in_ns`: sort the kinds with `"mnt"` last, run the switch
loop on the dedicated worker thread, then the callback; any exception on the
thread leaves `ret` as `None`. A `callback` of `none` models a callback that
itself raises. -/
def run_in_ns {T : Type} (env : NsEnv) (nstypes : List String)
    (callback : Option T) : List NsOp × Option T :=
  match switchLoop env (nsSorted nstypes) [] with
  | (ops, false) => (ops, none)
  | (ops, true) => (ops ++ [.callbackRun], callback)

/-! ## System Mutex (`grab_gprofiler_mutex`, `_take_lock`) -/

/-- Linux `errno.EADDRINUSE`. -/
def EADDRINUSE : Nat := 98

/-- The held lock: a bound abstract-namespace socket with its close-on-exec
flag. -/
structure LockSocket where
  cloexec : Bool
deriving DecidableEq

/-- Model of `_take_lock`: the bind either succeeds (`bindErr = none`) or
fails with an errno. A non-`EADDRINUSE` errno is re-raised; `EADDRINUSE` is
the normal already-locked outcome `(False, None)`. On success the socket is
marked close-on-exec and returned as `(True, s)`. -/
def take_lock (bindErr : Option Nat) :
    Except Nat (Bool × Option LockSocket) :=
  match bindErr with
  | none => .ok (true, some ⟨true⟩)
  | some e => if e != EADDRINUSE then .error e else .ok (false, none)

def PRIVILEGE_MSG : String :=
  "Could not acquire gProfiler's lock due to an error. Are you running gProfiler in privileged mode?"

def ALREADY_LOCKED_MSG : String :=
  "Could not acquire gProfiler's lock. Is it already running? Try 'sudo netstat -xp | grep gprofiler' to see which process holds the lock."

structure GrabResult where
  acquired : Bool
  heldSocket : Option LockSocket
  message : Option String
deriving DecidableEq

/-- Model of `grab_gprofiler_mutex`: run `_take_lock` in the init network
namespace via `run_in_ns`. A `None` result (exception in `run_in_ns`, e.g. a
failed namespace switch, or a re-raised bind error) is reported with the
privilege/setup diagnostic; `(False, None)` with the already-locked
diagnostic; on success the socket is held and `True` returned. -/
def grab_gprofiler_mutex (env : NsEnv) (bindErr : Option Nat) : GrabResult :=
  let callback : Option (Bool × Option LockSocket) :=
    match take_lock bindErr with
    | .ok r => some r
    | .error _ => none
  match (run_in_ns env ["net"] callback).2 with
  | none => ⟨false, none, some PRIVILEGE_MSG⟩
  | some (true, s) => ⟨true, s, none⟩
  | some (false, _) => ⟨false, none, some ALREADY_LOCKED_MSG⟩

/-! ### Helper lemmas for the sort and the switch loop -/

theorem nsInsert_zero (x : String) (hx : nsSortKey x = 0)
    (l : List String) : nsInsert x l = x :: l := by
  cases l with
  | nil => rfl
  | cons y ys => simp [nsInsert, hx]

theorem nsInsert_skip (x : String) (l1 l2 : List String)
    (h1 : ∀ a ∈ l1, nsSortKey a < nsSortKey x) :
    nsInsert x (l1 ++ l2) = l1 ++ nsInsert x l2 := by
  induction l1 with
  | nil => rfl
  | cons a as ih =>
    have ha := h1 a (List.mem_cons_self a as)
    simp only [List.cons_append, nsInsert, if_neg (not_le.mpr ha)]
    exact congrArg (a :: ·) (ih (fun b hb => h1 b (List.mem_cons_of_mem a hb)))

theorem nsInsert_front (x : String) (l : List String)
    (h : ∀ a ∈ l, nsSortKey x ≤ nsSortKey a) :
    nsInsert x l = x :: l := by
  cases l with
  | nil => rfl
  | cons y ys => simp [nsInsert, h y (List.mem_cons_self y ys)]

theorem nsSorted_eq_filter (l : List String) :
    nsSorted l = l.filter (fun k => !(k == "mnt")) ++
      l.filter (fun k => k == "mnt") := by
  induction l with
  | nil => rfl
  | cons x xs ih =>
    simp only [nsSorted, ih, List.filter_cons]
    by_cases hx : x = "mnt"
    · subst hx
      simp only [beq_self_eq_true, Bool.not_true, Bool.false_eq_true,
        if_false, if_true]
      rw [nsInsert_skip "mnt" _ _ ?h0]
      · rw [nsInsert_front "mnt" _ ?h1]
        case h1 =>
          intro a ha
          have := (List.mem_filter.mp ha).2
          simp only [nsSortKey, this]
          exact le_refl 1
      · intro a ha
        have := (List.mem_filter.mp ha).2
        simp only [Bool.not_eq_true'] at this
        simp [nsSortKey, this]
    · have hxb : (x == "mnt") = false := beq_eq_false_iff_ne.mpr hx
      simp only [hxb, Bool.not_false, Bool.false_eq_true, if_false, if_true]
      rw [nsInsert_zero x (by simp [nsSortKey, hxb])]
      rfl

theorem mem_nsSorted {a : String} {l : List String} :
    a ∈ nsSorted l ↔ a ∈ l := by
  rw [nsSorted_eq_filter]
  constructor
  · intro h
    rcases List.mem_append.mp h with h | h
    · exact (List.mem_filter.mp h).1
    · exact (List.mem_filter.mp h).1
  · intro h
    by_cases hx : a = "mnt"
    · refine List.mem_append.mpr (Or.inr (List.mem_filter.mpr ⟨h, ?_⟩))
      simp [hx]
    · refine List.mem_append.mpr (Or.inl (List.mem_filter.mpr ⟨h, ?_⟩))
      simp [hx]

theorem switchLoop_all_same (env : NsEnv) (l : List String)
    (acc : List NsOp) (h : ∀ k ∈ l, env.sameNs k = true) :
    switchLoop env l acc = (acc, true) := by
  induction l with
  | nil => rfl
  | cons k ks ih =>
    simp only [switchLoop, h k (List.mem_cons_self k ks), if_true]
    exact ih (fun x hx => h x (List.mem_cons_of_mem k hx))

/-- A kind whose namespace switch is attempted (not already joined, known
flag) and whose `unshare` or `setns` call fails. -/
def switchStepFails (env : NsEnv) (k : String) : Prop :=
  env.sameNs k = false ∧ (nsFlag k).isSome ∧
    (env.unshareOk k = false ∨ env.setnsOk k = false)

theorem switchLoop_snd_false (env : NsEnv) (l : List String)
    (h : ∃ k ∈ l, switchStepFails env k) :
    ∀ acc, (switchLoop env l acc).2 = false := by
  induction l with
  | nil =>
    obtain ⟨k, hk, _⟩ := h
    exact absurd hk (List.not_mem_nil k)
  | cons k ks ih =>
    intro acc
    obtain ⟨k0, hk0, hf⟩ := h
    cases hsame : env.sameNs k with
    | true =>
      have hk0ks : k0 ∈ ks := by
        rcases List.mem_cons.mp hk0 with heq | hmem
        · exfalso
          rw [heq] at hf
          rw [hf.1] at hsame
          exact Bool.false_ne_true hsame
        · exact hmem
      simp only [switchLoop, hsame, if_true]
      exact ih ⟨k0, hk0ks, hf⟩ acc
    | false =>
      simp only [switchLoop, hsame]
      rw [if_neg Bool.false_ne_true]
      cases hflag : nsFlag k with
      | none => rfl
      | some f =>
        cases hu : env.unshareOk k with
        | false => rw [if_neg Bool.false_ne_true]
        | true =>
          cases hs : env.setnsOk k with
          | false => rw [if_pos rfl, if_neg Bool.false_ne_true]
          | true =>
            have hk0ks : k0 ∈ ks := by
              rcases List.mem_cons.mp hk0 with heq | hmem
              · exfalso
                rw [heq] at hf
                rcases hf.2.2 with hbad | hbad
                · rw [hbad] at hu; exact Bool.false_ne_true hu
                · rw [hbad] at hs; exact Bool.false_ne_true hs
              · exact hmem
            rw [if_pos rfl, if_pos rfl]
            exact ih ⟨k0, hk0ks, hf⟩ _

theorem switchLoop_no_callback (env : NsEnv) (l : List String) :
    ∀ acc, NsOp.callbackRun ∉ acc →
      NsOp.callbackRun ∉ (switchLoop env l acc).1 := by
  induction l with
  | nil => exact fun acc hacc => hacc
  | cons k ks ih =>
    intro acc hacc
    have hacc2 : NsOp.callbackRun ∉ acc ++ [NsOp.unshareOp k, NsOp.setnsOp k] := by
      intro hm
      rcases List.mem_append.mp hm with hm | hm
      · exact hacc hm
      · simp at hm
    have hacc1 : NsOp.callbackRun ∉ acc ++ [NsOp.unshareOp k] := by
      intro hm
      rcases List.mem_append.mp hm with hm | hm
      · exact hacc hm
      · simp at hm
    cases hsame : env.sameNs k with
    | true =>
      simp only [switchLoop, hsame, if_true]
      exact ih acc hacc
    | false =>
      simp only [switchLoop, hsame]
      rw [if_neg Bool.false_ne_true]
      cases hflag : nsFlag k with
      | none => exact hacc
      | some f =>
        cases hu : env.unshareOk k with
        | false =>
          rw [if_neg Bool.false_ne_true]
          exact hacc1
        | true =>
          cases hs : env.setnsOk k with
          | false =>
            rw [if_pos rfl, if_neg Bool.false_ne_true]
            exact hacc2
          | true =>
            rw [if_pos rfl, if_pos rfl]
            exact ih _ hacc2

/-- Claim C3: when an unshare or setns step fails in the Namespace Executor,
the callback is never invoked (no retries) and the caller receives `none`, a
fatal outcome distinguishable from a user-level result; in particular a mutex
acquisition whose namespace switch fails is reported with the distinct
privilege/setup diagnostic, not the already-locked one. -/
theorem ns_failure_aborts_callback {T : Type} (env : NsEnv)
    (nstypes : List String) (v : T) (bindErr : Option Nat)
    (h : ∃ k ∈ nstypes, switchStepFails env k) :
    (run_in_ns env nstypes (some v)).2 = none ∧
    NsOp.callbackRun ∉ (run_in_ns env nstypes (some v)).1 ∧
    ((∃ k ∈ ["net"], switchStepFails env k) →
      grab_gprofiler_mutex env bindErr =
          ⟨false, none, some PRIVILEGE_MSG⟩ ∧
        PRIVILEGE_MSG ≠ ALREADY_LOCKED_MSG) := by
  have hsorted : ∃ k ∈ nsSorted nstypes, switchStepFails env k := by
    obtain ⟨k, hk, hf⟩ := h
    exact ⟨k, mem_nsSorted.mpr hk, hf⟩
  have hsnd := switchLoop_snd_false env (nsSorted nstypes) hsorted []
  have hnocb := switchLoop_no_callback env (nsSorted nstypes) []
    (List.not_mem_nil _)
  rcases hsw : switchLoop env (nsSorted nstypes) [] with ⟨ops, b⟩
  rw [hsw] at hsnd hnocb
  have hb : b = false := hsnd
  subst hb
  refine ⟨?_, ?_, ?_⟩
  · unfold run_in_ns
    rw [hsw]
  · unfold run_in_ns
    rw [hsw]
    exact hnocb
  · intro hnet
    have hsnd2 := switchLoop_snd_false env (nsSorted ["net"]) ?hn []
    case hn =>
      obtain ⟨k, hk, hf⟩ := hnet
      exact ⟨k, mem_nsSorted.mpr hk, hf⟩
    rcases hsw2 : switchLoop env (nsSorted ["net"]) [] with ⟨ops2, b2⟩
    rw [hsw2] at hsnd2
    have hb2 : b2 = false := hsnd2
    subst hb2
    refine ⟨?_, by decide⟩
    unfold grab_gprofiler_mutex run_in_ns
    rw [hsw2]

/-- Witness for C3: a target whose network namespace differs and whose
`unshare` call fails. -/
theorem ns_failure_aborts_callback_witness :
    (run_in_ns ⟨fun _ => false, fun _ => false, fun _ => true⟩ ["net"]
        (some (0 : Nat))).2 = none ∧
    NsOp.callbackRun ∉
      (run_in_ns ⟨fun _ => false, fun _ => false, fun _ => true⟩ ["net"]
        (some (0 : Nat))).1 ∧
    ((∃ k ∈ ["net"],
        switchStepFails ⟨fun _ => false, fun _ => false, fun _ => true⟩ k) →
      grab_gprofiler_mutex ⟨fun _ => false, fun _ => false, fun _ => true⟩
          none = ⟨false, none, some PRIVILEGE_MSG⟩ ∧
        PRIVILEGE_MSG ≠ ALREADY_LOCKED_MSG) :=
  ns_failure_aborts_callback ⟨fun _ => false, fun _ => false, fun _ => true⟩
    ["net"] 0 none
    ⟨"net", List.mem_cons_self _ _, rfl, rfl, Or.inl rfl⟩

/-- Claim C4: a bind failure with errno `EADDRINUSE` yields the normal,
non-raising already-locked outcome `(False, None)`; a bind failure with any
other errno is re-raised. -/
theorem take_lock_contention_vs_fatal (e : Nat) :
    (e = EADDRINUSE → take_lock (some e) = .ok (false, none)) ∧
    (e ≠ EADDRINUSE → take_lock (some e) = .error e) := by
  constructor
  · intro he
    subst he
    rfl
  · intro he
    simp [take_lock, he]

/-- Witness for C4: errno 98 (`EADDRINUSE`) is contention, errno 13
(`EACCES`) is fatal. -/
theorem take_lock_contention_vs_fatal_witness :
    take_lock (some 98) = .ok (false, none) ∧
      take_lock (some 13) = .error 13 :=
  ⟨(take_lock_contention_vs_fatal 98).1 rfl,
   (take_lock_contention_vs_fatal 13).2 (by decide)⟩

/-- Claim C8: the reordering `run_in_ns` applies before any join puts every
`"mnt"` entry after every non-`"mnt"` entry and preserves the relative order
of the non-`"mnt"` kinds. -/
theorem run_in_ns_orders_mnt_last (nstypes : List String) :
    nsSorted nstypes =
      nstypes.filter (fun k => !(k == "mnt")) ++
        nstypes.filter (fun k => k == "mnt") :=
  nsSorted_eq_filter nstypes

/-- Claim C9: when the calling thread is already in every requested
namespace, `run_in_ns` performs zero unshare/setns operations, runs the
callback exactly once, and returns its result unchanged. -/
theorem run_in_ns_idempotent {T : Type} (env : NsEnv) (nstypes : List String)
    (v : T) (h : ∀ k ∈ nstypes, env.sameNs k = true) :
    run_in_ns env nstypes (some v) = ([NsOp.callbackRun], some v) := by
  unfold run_in_ns
  rw [switchLoop_all_same env (nsSorted nstypes) []
    (fun k hk => h k (mem_nsSorted.mp hk))]
  rfl

/-- Witness for C9: all requested namespaces already joined. -/
theorem run_in_ns_idempotent_witness :
    run_in_ns ⟨fun _ => true, fun _ => true, fun _ => true⟩ ["net", "mnt"]
      (some (7 : Nat)) = ([NsOp.callbackRun], some 7) :=
  run_in_ns_idempotent ⟨fun _ => true, fun _ => true, fun _ => true⟩
    ["net", "mnt"] 7 (fun _ _ => rfl)

/-! ## Cancellable Wait Primitive (`wait_event`) and Output Locator
(`wait_for_file_by_prefix`)

The directory is modelled as a fixed list of filenames `fs` (no concurrent
writers during the call), so the glob's success is a constant condition; the
stop-event and deadline observations of each loop slice are recorded in a
list of steps. -/

inductive WaitErr where
  | stopEventSet
  | timedOut
deriving DecidableEq

/-- Observations made in one iteration of the `wait_event` loop: whether
`stop_event.wait(0.1)` returned true and whether `time.monotonic()` passed
`end_time`. -/
structure WaitStep where
  stopSet : Bool
  pastEnd : Bool
deriving DecidableEq

/-- Model of `wait_event`: check the condition, wait a slice on the stop
event (raising `StopEventSetException` if set), then check the deadline
(raising `TimeoutError`). `none` means the recorded observations ran out
with the loop still spinning. -/
def wait_event (cond : Bool) : List WaitStep → Option (Except WaitErr Unit)
  | [] => if cond then some (.ok ()) else none
  | s :: rest =>
    if cond then some (.ok ())
    else if s.stopSet then some (.error .stopEventSet)
    else if s.pastEnd then some (.error .timedOut)
    else wait_event cond rest

/-- What the Output Locator did: the file returned and the files unlinked. -/
structure LocateResult where
  returned : String
  deleted : List String
deriving DecidableEq

/-- Model of `wait_for_file_by_prefix`: wait until some `prefix*` match
exists, then re-glob; with exactly one match return it, otherwise sort
lexicographically, unlink all but the last and return the last. -/
def wait_for_file_by_prefix (fs : List String) (pre : String)
    (steps : List WaitStep) : Option (Except WaitErr LocateResult) :=
  let output_files := fs.filter (fun f => strStartsWith f pre)
  match wait_event (decide (0 < output_files.length)) steps with
  | none => none
  | some (.error e) => some (.error e)
  | some (.ok _) =>
    if output_files.length != 1 then
      let sorted := List.insertionSort (· ≤ ·) output_files
      some (.ok ⟨sorted.getLastD "", sorted.dropLast⟩)
    else
      some (.ok ⟨output_files.headD "", []⟩)

/-! ### Helper lemmas for the locator -/

theorem sorted_le_getLastD (l : List String) (hs : l.Sorted (· ≤ ·)) :
    ∀ x ∈ l, ∀ d, x ≤ l.getLastD d := by
  induction l with
  | nil =>
    intro x hx
    exact absurd hx (List.not_mem_nil x)
  | cons a as ih =>
    intro x hx d
    have hs2 := List.sorted_cons.mp hs
    cases as with
    | nil =>
      rcases List.mem_cons.mp hx with heq | hmem
      · subst heq
        simp [List.getLastD_eq_getLast?]
      · exact absurd hmem (List.not_mem_nil x)
    | cons b bs =>
      have hrw : (a :: b :: bs).getLastD d = (b :: bs).getLastD d := by
        rw [List.getLastD_eq_getLast?, List.getLast?_cons_cons,
          ← List.getLastD_eq_getLast?]
      rw [hrw]
      rcases List.mem_cons.mp hx with heq | hmem
      · subst heq
        exact le_trans (hs2.1 b (List.mem_cons_self b bs))
          (ih hs2.2 b (List.mem_cons_self b bs) d)
      · exact ih hs2.2 x hmem d

theorem dropLast_append_getLastD (l : List String) (hl : l ≠ [])
    (d : String) : l.dropLast ++ [l.getLastD d] = l := by
  rw [List.getLastD_eq_getLast?, List.getLast?_eq_getLast l hl,
    Option.getD_some]
  exact List.dropLast_append_getLast hl

theorem locate_core (m : List String) (hne : m ≠ []) :
    ((List.insertionSort (· ≤ ·) m).getLastD "") ∈ m ∧
    (∀ f ∈ m, f ≤ (List.insertionSort (· ≤ ·) m).getLastD "") ∧
    ((List.insertionSort (· ≤ ·) m).dropLast ++
      [(List.insertionSort (· ≤ ·) m).getLastD ""]).Perm m ∧
    ((List.insertionSort (· ≤ ·) m).dropLast).Sorted (· ≤ ·) := by
  have hperm : (List.insertionSort (· ≤ ·) m).Perm m :=
    List.perm_insertionSort _ m
  have hsorted : (List.insertionSort (· ≤ ·) m).Sorted (· ≤ ·) :=
    List.sorted_insertionSort _ m
  have hsne : List.insertionSort (· ≤ ·) m ≠ [] := by
    intro h0
    have hlen := hperm.length_eq
    rw [h0] at hlen
    exact hne (List.length_eq_zero.mp hlen.symm)
  have hdl : (List.insertionSort (· ≤ ·) m).dropLast ++
      [(List.insertionSort (· ≤ ·) m).getLastD ""] =
      List.insertionSort (· ≤ ·) m := dropLast_append_getLastD _ hsne ""
  refine ⟨?_, ?_, ?_, ?_⟩
  · apply hperm.mem_iff.mp
    conv_lhs => rw [← hdl]
    exact List.mem_append_right _ (List.mem_singleton.mpr rfl)
  · intro f hf
    exact sorted_le_getLastD _ hsorted f (hperm.mem_iff.mpr hf) ""
  · rw [hdl]
    exact hperm
  · exact List.Pairwise.sublist (List.dropLast_sublist _) hsorted

/-- Claim C5: after a successful wait, when more than one file matches the
prefix glob the matches are sorted lexicographically, every match except the
lexicographically last is deleted and the last is returned; duplicates alone
never cause a failure. -/
theorem wait_for_file_duplicates_recovered (fs : List String) (pre : String)
    (steps : List WaitStep)
    (hwait : wait_event
      (decide (0 < (fs.filter (fun f => strStartsWith f pre)).length))
      steps = some (.ok ()))
    (hmany : 1 < (fs.filter (fun f => strStartsWith f pre)).length) :
    ∃ r, wait_for_file_by_prefix fs pre steps = some (.ok r) ∧
      r.returned ∈ fs.filter (fun f => strStartsWith f pre) ∧
      (∀ f ∈ fs.filter (fun f => strStartsWith f pre), f ≤ r.returned) ∧
      (r.deleted ++ [r.returned]).Perm
        (fs.filter (fun f => strStartsWith f pre)) ∧
      r.deleted.Sorted (· ≤ ·) := by
  have hne : fs.filter (fun f => strStartsWith f pre) ≠ [] := by
    intro h0
    rw [h0] at hmany
    simp at hmany
  obtain ⟨hmem, hmax, hperm, hsorted⟩ :=
    locate_core (fs.filter (fun f => strStartsWith f pre)) hne
  refine ⟨⟨(List.insertionSort (· ≤ ·)
      (fs.filter (fun f => strStartsWith f pre))).getLastD "",
    (List.insertionSort (· ≤ ·)
      (fs.filter (fun f => strStartsWith f pre))).dropLast⟩,
    ?_, hmem, hmax, hperm, hsorted⟩
  have hne1 : ((fs.filter (fun f => strStartsWith f pre)).length != 1) =
      true := by
    simp only [bne_iff_ne, ne_eq]
    omega
  simp only [ wait_for_file_by_prefix, hwait, hne1, if_true]

/-- Witness for C5: files `prefix-001`, `prefix-002`, `prefix-003` with the
wait succeeding immediately. -/
theorem wait_for_file_duplicates_recovered_witness :
    ∃ r, wait_for_file_by_prefix ["prefix-001", "prefix-002", "prefix-003"]
        "prefix-" [] = some (.ok r) ∧
      r.returned ∈ ["prefix-001", "prefix-002", "prefix-003"].filter
        (fun f => strStartsWith f "prefix-") ∧
      (∀ f ∈ ["prefix-001", "prefix-002", "prefix-003"].filter
        (fun f => strStartsWith f "prefix-"), f ≤ r.returned) ∧
      (r.deleted ++ [r.returned]).Perm
        (["prefix-001", "prefix-002", "prefix-003"].filter
          (fun f => strStartsWith f "prefix-")) ∧
      r.deleted.Sorted (· ≤ ·) :=
  wait_for_file_duplicates_recovered
    ["prefix-001", "prefix-002", "prefix-003"] "prefix-" [] (by rfl)
    (by decide)

end Gprofiler
